import Mathlib

/-!
Verification development for the Digital Stopwatch & Timer repository.

The development shallowly embeds the three parts of the program that the
specification describes:

* the pure `formatTime` utility (src/utility.js and the unnamed script),
* the Stopwatch module (closure state `isRunning`, `startTime`,
  `elapsedTime`, `intervalId`, `laps` and the operations `start`, `pause`,
  `reset`, `recordLap` plus the 10 ms interval callback),
* the Timer module (closure state `isRunning`, `remainingTime`,
  `totalTime`, `intervalId`, `endTime`, the three duration input fields,
  and the operations `start`, `pause`, `reset`, `complete`, the 100 ms
  interval callback and the input-event handlers).

JavaScript numbers are modelled as `Int` (all arithmetic performed by the
program on these values is integer arithmetic: `Date.now()` deltas,
`Math.floor` divisions, `Math.max`/`Math.min` clamps).  The presence of a
pending `setInterval` handle (`intervalId !== null`) is modelled by the
Boolean `intervalActive`; `clearInterval` is synchronous, so the interval
callback (`tick`) fires only while `intervalActive` is true.  The
completion alert (`showComplete`, three `playBeep` calls scheduled with
`setTimeout` at offsets 0/300/600 ms) is modelled by appending the three
scheduled absolute times to a `beeps` log; `playBeep` itself is a
fire-and-forget external collaborator.
-/

/-! ## Decimal string rendering (the model of JS `String(n)` and `padStart`) -/

/-- The decimal digit character for `n < 10`, as produced by JS number
rendering. -/
def digitChar (n : Nat) : Char := Char.ofNat (48 + n)

/-- Fuel-driven decimal rendering of a natural number, most significant
digit first.  With fuel at least `n`, `decDigits (fuel+1) n` is the full
decimal representation of `n` with no leading zeros (and a single `'0'`
for `n = 0`). -/
def decDigits : Nat → Nat → List Char
  | 0, _ => []
  | fuel + 1, n =>
    if n < 10 then [digitChar n]
    else decDigits fuel (n / 10) ++ [digitChar (n % 10)]

/-- Model of JS `String(n)` for a non-negative number: the decimal
representation of `n`. -/
def jsString (n : Nat) : String := String.mk (decDigits (n + 1) n)

/-- Model of JS `s.padStart(2, '0')`: prepend `'0'` until the length is at
least 2; a longer string is returned unchanged (padding never truncates). -/
def padStart2 (s : String) : String :=
  String.mk (List.replicate (2 - s.data.length) '0' ++ s.data)

/-! ## `formatTime` (src/utility.js lines 9-25) -/

/-- The object returned by `formatTime`: four rendered components.  The
field holding the hundredths-of-a-second component is called
`milliseconds`, as in the source. -/
structure TimeParts where
  hours : String
  minutes : String
  seconds : String
  milliseconds : String
deriving Repr, DecidableEq

/-- `formatTime(ms, includeMs)` from src/utility.js.  `Math.max(0, ms)`
clamps the input, after which every quantity is a non-negative integer, so
the `Math.floor` divisions are `Nat` divisions.  The `includeMs` parameter
is accepted and ignored, exactly as in the source body. -/
def formatTime (ms : Int) (_includeMs : Bool := true) : TimeParts :=
  let totalMs : Nat := (max 0 ms).toNat
  let totalSeconds : Nat := totalMs / 1000
  let hours : Nat := totalSeconds / 3600
  let minutes : Nat := (totalSeconds % 3600) / 60
  let seconds : Nat := totalSeconds % 60
  let milliseconds : Nat := (totalMs % 1000) / 10
  { hours := padStart2 (jsString hours)
    minutes := padStart2 (jsString minutes)
    seconds := padStart2 (jsString seconds)
    milliseconds := padStart2 (jsString milliseconds) }

/-! ### Length facts about the rendered strings -/

theorem decDigits_succ (fuel n : Nat) :
    decDigits (fuel + 1) n =
      if n < 10 then [digitChar n]
      else decDigits fuel (n / 10) ++ [digitChar (n % 10)] := rfl

theorem decDigits_length_pos (fuel n : Nat) : 1 ≤ (decDigits (fuel + 1) n).length := by
  rw [decDigits_succ]
  split
  · simp
  · simp

theorem decDigits_length_le_iff :
    ∀ fuel n k : Nat, n ≤ fuel →
      ((decDigits (fuel + 1) n).length ≤ k + 1 ↔ n < 10 ^ (k + 1)) := by
  intro fuel
  induction fuel with
  | zero =>
    intro n k hn
    have hn0 : n = 0 := Nat.le_zero.mp hn
    subst hn0
    rw [decDigits_succ, if_pos (by norm_num)]
    simp only [List.length_singleton]
    constructor
    · intro _
      exact Nat.pos_pow_of_pos _ (by norm_num)
    · intro _
      exact Nat.succ_le_succ (Nat.zero_le k)
  | succ f ih =>
    intro n k hn
    by_cases h10 : n < 10
    · rw [decDigits_succ, if_pos h10]
      simp only [List.length_singleton]
      have h1 : (10 : Nat) ≤ 10 ^ (k + 1) := by
        calc (10 : Nat) = 10 ^ 1 := (pow_one 10).symm
        _ ≤ 10 ^ (k + 1) := Nat.pow_le_pow_right (by norm_num) (by omega)
      constructor
      · intro _
        exact Nat.lt_of_lt_of_le h10 h1
      · intro _
        exact Nat.succ_le_succ (Nat.zero_le k)
    · rw [decDigits_succ, if_neg h10, List.length_append, List.length_singleton]
      cases k with
      | zero =>
        have hpos := decDigits_length_pos f (n / 10)
        constructor
        · intro h
          omega
        · intro h
          omega
      | succ j =>
        have hfuel : n / 10 ≤ f := by omega
        have hih := ih (n / 10) j hfuel
        have hdiv : n / 10 < 10 ^ (j + 1) ↔ n < 10 ^ (j + 1 + 1) := by
          rw [Nat.div_lt_iff_lt_mul (by norm_num : (0:Nat) < 10), ← pow_succ]
        constructor
        · intro h
          exact hdiv.mp (hih.mp (by omega))
        · intro h
          have := hih.mpr (hdiv.mpr h)
          omega


theorem jsString_length_le_two_iff (n : Nat) : (jsString n).length ≤ 2 ↔ n < 100 := by
  have := decDigits_length_le_iff n n 1 (Nat.le_refl n)
  simpa [jsString, String.length] using this

theorem jsString_length_pos (n : Nat) : 1 ≤ (jsString n).length := by
  simpa [jsString, String.length] using decDigits_length_pos n n

theorem padStart2_length (s : String) : (padStart2 s).length = max 2 s.length := by
  simp only [padStart2, String.length]
  rw [List.length_append, List.length_replicate]
  omega

theorem padStart2_jsString_length_eq_two (n : Nat) (h : n < 100) :
    (padStart2 (jsString n)).length = 2 := by
  have h2 := (jsString_length_le_two_iff n).mpr h
  rw [padStart2_length]
  omega

theorem padStart2_jsString_length_iff (n : Nat) :
    (padStart2 (jsString n)).length = 2 ↔ n < 100 := by
  rw [padStart2_length]
  rw [show (max 2 (jsString n).length = 2 ↔ (jsString n).length ≤ 2) from by omega]
  exact jsString_length_le_two_iff n

/-! ## C1 and C10: the `formatTime` contract -/

/-- C1: for every input duration `ms`, `formatTime` clamps negative `ms`
to 0 and returns the decomposition of the clamped duration into
hours = clamped / 3600000 (unbounded), minutes = clamped % 3600000 / 60000
(in 0-59), seconds = clamped / 1000 % 60 (in 0-59) and hundredths =
clamped % 1000 / 10, each rendered zero-padded to (at least) two decimal
digits. -/
theorem formatTime_decomposition (ms : Int) :
    formatTime ms =
      { hours := padStart2 (jsString ((max 0 ms).toNat / 3600000))
        minutes := padStart2 (jsString ((max 0 ms).toNat % 3600000 / 60000))
        seconds := padStart2 (jsString ((max 0 ms).toNat / 1000 % 60))
        milliseconds := padStart2 (jsString ((max 0 ms).toNat % 1000 / 10)) } ∧
    (max 0 ms).toNat % 3600000 / 60000 < 60 ∧
    (max 0 ms).toNat / 1000 % 60 < 60 ∧
    (max 0 ms).toNat % 1000 / 10 < 100 := by
  refine ⟨?_, by omega, by omega, by omega⟩
  have h1 : (max 0 ms).toNat / 1000 / 3600 = (max 0 ms).toNat / 3600000 := by omega
  have h2 : (max 0 ms).toNat / 1000 % 3600 / 60 = (max 0 ms).toNat % 3600000 / 60000 := by
    omega
  simp only [formatTime, h1, h2]

/-- C10: the minutes, seconds and hundredths strings returned by
`formatTime` always have length exactly 2; the hours string has length 2
exactly when the hour count is below 100, and for any `ms` of at least
100 hours it is strictly longer than two characters (padding never
truncates). -/
theorem formatTime_component_lengths (ms : Int) :
    (formatTime ms).minutes.length = 2 ∧
    (formatTime ms).seconds.length = 2 ∧
    (formatTime ms).milliseconds.length = 2 ∧
    ((formatTime ms).hours.length = 2 ↔ (max 0 ms).toNat / 3600000 < 100) ∧
    ((360000000 : Int) ≤ ms → 2 < (formatTime ms).hours.length) := by
  simp only [formatTime]
  refine ⟨padStart2_jsString_length_eq_two _ (by omega),
          padStart2_jsString_length_eq_two _ (by omega),
          padStart2_jsString_length_eq_two _ (by omega), ?_, ?_⟩
  · rw [padStart2_jsString_length_iff]
    constructor <;> intro h <;> omega
  · intro hms
    have h100 : 100 ≤ (max 0 ms).toNat / 1000 / 3600 := by
      have : (360000000 : Int) ≤ max 0 ms := le_trans hms (le_max_right 0 ms)
      have h1 : (360000000 : Nat) ≤ (max 0 ms).toNat := by
        omega
      omega
    have hlen : ¬ (jsString ((max 0 ms).toNat / 1000 / 3600)).length ≤ 2 := by
      rw [jsString_length_le_two_iff]
      omega
    rw [padStart2_length]
    omega

/-- Witness for C10 at `ms = 360000000` (exactly 100 hours): the hours
component is three characters long. -/
theorem formatTime_component_lengths_witness :
    2 < (formatTime 360000000).hours.length :=
  (formatTime_component_lengths 360000000).2.2.2.2 (by norm_num)

/-! ## The Stopwatch module (src/unnamed/part_000 lines 87-249) -/

/-- A recorded lap, as pushed by `recordLap`: `number` is the 1-based lap
index, `total` the elapsed time when the lap was recorded, `diff` the
difference to the previous lap's total. -/
structure Lap where
  number : Nat
  total : Int
  diff : Int
deriving Repr, DecidableEq

/-- The Stopwatch closure state.  `intervalActive` models
`intervalId !== null`, i.e. whether the 10 ms interval callback is
scheduled. -/
structure StopwatchState where
  isRunning : Bool
  startTime : Int
  elapsedTime : Int
  intervalActive : Bool
  laps : List Lap
deriving Repr, DecidableEq

/-- `laps.length > 0 ? laps[laps.length - 1].total : 0` from `recordLap`. -/
def lastTotal (l : List Lap) : Int :=
  match l.getLast? with
  | some lap => lap.total
  | none => 0

namespace Stopwatch

/-- `start()`: no-op when already running; otherwise records
`startTime = Date.now() - elapsedTime`, sets the running flag and
schedules the 10 ms interval callback. -/
def start (now : Int) (s : StopwatchState) : StopwatchState :=
  if s.isRunning then s
  else { s with isRunning := true, startTime := now - s.elapsedTime, intervalActive := true }

/-- The body of the 10 ms interval callback:
`elapsedTime = Date.now() - startTime`.  It runs only while the interval
is scheduled (`clearInterval` is synchronous, so no stale callback fires
after cancellation). -/
def tick (now : Int) (s : StopwatchState) : StopwatchState :=
  if s.intervalActive then { s with elapsedTime := now - s.startTime } else s

/-- `pause()`: no-op when not running; otherwise clears the running flag
and cancels the interval (`clearInterval(intervalId); intervalId = null`). -/
def pause (s : StopwatchState) : StopwatchState :=
  if s.isRunning then { s with isRunning := false, intervalActive := false } else s

/-- `reset()`: forces `pause()`, then zeroes the elapsed time and clears
the lap list. -/
def reset (s : StopwatchState) : StopwatchState :=
  let s' := pause s
  { s' with elapsedTime := 0, laps := [] }

/-- `recordLap()`: no-op when not running; otherwise pushes a lap with
`number = laps.length + 1`, `total = elapsedTime` and
`diff = elapsedTime - (last lap's total, or 0)`. -/
def recordLap (s : StopwatchState) : StopwatchState :=
  if s.isRunning then
    { s with laps := s.laps ++
        [{ number := s.laps.length + 1
           total := s.elapsedTime
           diff := s.elapsedTime - lastTotal s.laps }] }
  else s

end Stopwatch

/-- The initial Stopwatch closure state (`isRunning = false`,
`startTime = 0`, `elapsedTime = 0`, `intervalId = null`, `laps = []`). -/
def swInit : StopwatchState :=
  { isRunning := false, startTime := 0, elapsedTime := 0, intervalActive := false, laps := [] }

/-- The user-and-host events that can reach the Stopwatch module: button
clicks and interval-callback firings. -/
inductive SwOp where
  | start : SwOp
  | pause : SwOp
  | reset : SwOp
  | recordLap : SwOp
  | tick : SwOp
deriving Repr, DecidableEq

/-- One event applied to the Stopwatch state; the second component of the
pair is the wall-clock time `Date.now()` at which the event fires (unused
by the clock-free operations). -/
def swStep (s : StopwatchState) (p : SwOp × Int) : StopwatchState :=
  match p.1 with
  | SwOp.start => Stopwatch.start p.2 s
  | SwOp.pause => Stopwatch.pause s
  | SwOp.reset => Stopwatch.reset s
  | SwOp.recordLap => Stopwatch.recordLap s
  | SwOp.tick => Stopwatch.tick p.2 s

/-- A whole event history applied to a Stopwatch state. -/
def swRun (s : StopwatchState) (ops : List (SwOp × Int)) : StopwatchState :=
  ops.foldl swStep s

/-- The lap-list invariant, checked along the list with `prev` the total
of the preceding lap (0 before the first): each lap's `diff` is its
`total` minus `prev`, and totals never decrease. -/
def lapsOk : Int → List Lap → Bool
  | _, [] => true
  | prev, lap :: rest =>
    (decide (lap.diff = lap.total - prev) && decide (prev ≤ lap.total)) && lapsOk lap.total rest

/-- `lastTotal` generalised to an arbitrary value for the empty list,
used to state the `lapsOk` concatenation lemma. -/
def lastTotalFrom (prev : Int) (l : List Lap) : Int :=
  match l.getLast? with
  | some lap => lap.total
  | none => prev

theorem lastTotalFrom_zero (l : List Lap) : lastTotalFrom 0 l = lastTotal l := by
  cases l <;> rfl

theorem lastTotalFrom_cons (prev : Int) (a : Lap) (rest : List Lap) :
    lastTotalFrom prev (a :: rest) = lastTotalFrom a.total rest := by
  cases rest with
  | nil => rfl
  | cons b t =>
    cases h : (b :: t).getLast? with
    | none => simp at h
    | some x => simp [lastTotalFrom, List.getLast?_cons_cons, h]

theorem lastTotalFrom_concat (prev : Int) (l : List Lap) (a : Lap) :
    lastTotalFrom prev (l ++ [a]) = a.total := by
  simp [lastTotalFrom, List.getLast?_concat]

theorem lapsOk_concat (lap : Lap) :
    ∀ (l : List Lap) (prev : Int),
      lapsOk prev (l ++ [lap]) =
        (lapsOk prev l &&
          (decide (lap.diff = lap.total - lastTotalFrom prev l) &&
            decide (lastTotalFrom prev l ≤ lap.total))) := by
  intro l
  induction l with
  | nil =>
    intro prev
    simp [lapsOk, lastTotalFrom]
  | cons a rest ih =>
    intro prev
    simp only [List.cons_append, lapsOk, List.append_eq, ih, lastTotalFrom_cons, Bool.and_assoc]

/-- The Stopwatch history invariant, relative to the current wall-clock
time `t`: the lap list is well-chained, the last lap's total never exceeds
the current elapsed time, the interval flag mirrors the running flag, and
while the interval is scheduled the elapsed value is consistent with a
start instant in the past (`startTime + elapsedTime ≤ t`). -/
def SwInv (t : Int) (s : StopwatchState) : Prop :=
  s.intervalActive = s.isRunning ∧
  lapsOk 0 s.laps = true ∧
  lastTotal s.laps ≤ s.elapsedTime ∧
  (s.intervalActive = true → s.startTime + s.elapsedTime ≤ t)

theorem swInv_mono {t u : Int} {s : StopwatchState} (h : SwInv t s) (htu : t ≤ u) :
    SwInv u s := by
  obtain ⟨h1, h2, h3, h4⟩ := h
  exact ⟨h1, h2, h3, fun ha => le_trans (h4 ha) htu⟩

theorem swInv_init (t : Int) : SwInv t swInit := by
  refine ⟨rfl, rfl, ?_, ?_⟩
  · simp [swInit, lastTotal]
  · intro h
    simp [swInit] at h

theorem swStep_inv {t u : Int} {s : StopwatchState} (op : SwOp)
    (hs : SwInv t s) (htu : t ≤ u) : SwInv u (swStep s (op, u)) := by
  obtain ⟨h1, h2, h3, h4⟩ := hs
  obtain ⟨run, st, el, act, lp⟩ := s
  simp only at h1 h2 h3 h4
  subst h1
  cases act with
  | false =>
    cases op with
    | start =>
      show SwInv u ⟨true, u - el, el, true, lp⟩
      refine ⟨rfl, h2, h3, fun _ => ?_⟩
      show u - el + el ≤ u
      omega
    | pause =>
      exact ⟨rfl, h2, h3, fun hx => Bool.noConfusion hx⟩
    | reset =>
      show SwInv u ⟨false, st, 0, false, []⟩
      exact ⟨rfl, rfl, le_refl 0, fun hx => Bool.noConfusion hx⟩
    | recordLap =>
      exact ⟨rfl, h2, h3, fun hx => Bool.noConfusion hx⟩
    | tick =>
      exact ⟨rfl, h2, h3, fun hx => Bool.noConfusion hx⟩
  | true =>
    have h4' : st + el ≤ t := h4 rfl
    cases op with
    | start =>
      exact ⟨rfl, h2, h3, fun _ => show st + el ≤ u by omega⟩
    | pause =>
      show SwInv u ⟨false, st, el, false, lp⟩
      exact ⟨rfl, h2, h3, fun hx => Bool.noConfusion hx⟩
    | reset =>
      show SwInv u ⟨false, st, 0, false, []⟩
      exact ⟨rfl, rfl, le_refl 0, fun hx => Bool.noConfusion hx⟩
    | recordLap =>
      show SwInv u ⟨true, st, el,
        true, lp ++ [{ number := lp.length + 1, total := el, diff := el - lastTotal lp }]⟩
      refine ⟨rfl, ?_, ?_, fun _ => show st + el ≤ u by omega⟩
      · show lapsOk 0 (lp ++ [_]) = true
        rw [lapsOk_concat, lastTotalFrom_zero, h2]
        simp [h3]
      · show lastTotal (lp ++ [_]) ≤ el
        rw [← lastTotalFrom_zero, lastTotalFrom_concat]
    | tick =>
      show SwInv u ⟨true, st, u - st, true, lp⟩
      refine ⟨rfl, h2, ?_, fun _ => show st + (u - st) ≤ u by omega⟩
      show lastTotal lp ≤ u - st
      omega

theorem swRun_inv :
    ∀ (ops : List (SwOp × Int)) (s : StopwatchState) (t : Int),
      SwInv t s → List.Chain' (fun a b : Int => a ≤ b) (t :: ops.map Prod.snd) →
      ∃ t', SwInv t' (swRun s ops) := by
  intro ops
  induction ops with
  | nil =>
    intro s t hs _
    exact ⟨t, hs⟩
  | cons p rest ih =>
    intro s t hs hchain
    obtain ⟨op, u⟩ := p
    rw [List.map_cons, List.chain'_cons] at hchain
    exact ih (swStep s (op, u)) u (swStep_inv op hs hchain.1) hchain.2

/-- Default lap handed to `List.getD` when indexing lap lists. -/
def dummyLap : Lap := { number := 0, total := 0, diff := 0 }

theorem lapsOk_getD_diff :
    ∀ (l : List Lap) (prev : Int), lapsOk prev l = true →
      ∀ i : Nat, i < l.length →
        (l.getD i dummyLap).diff =
          (l.getD i dummyLap).total -
            (if i = 0 then prev else (l.getD (i - 1) dummyLap).total) := by
  intro l
  induction l with
  | nil =>
    intro prev _ i hi
    simp at hi
  | cons a rest ih =>
    intro prev h i hi
    simp only [lapsOk, Bool.and_eq_true, decide_eq_true_eq] at h
    obtain ⟨⟨hd, _⟩, hrest⟩ := h
    cases i with
    | zero => simpa using hd
    | succ m =>
      have hm : m < rest.length := by
        simpa using Nat.lt_of_succ_lt_succ hi
      have hrec := ih a.total hrest m hm
      cases m with
      | zero => simpa using hrec
      | succ p => simpa [List.getD_cons_succ] using hrec

theorem lapsOk_prev_le :
    ∀ (l : List Lap) (prev : Int), lapsOk prev l = true →
      ∀ i : Nat, i < l.length → prev ≤ (l.getD i dummyLap).total := by
  intro l
  induction l with
  | nil =>
    intro prev _ i hi
    simp at hi
  | cons a rest ih =>
    intro prev h i hi
    simp only [lapsOk, Bool.and_eq_true, decide_eq_true_eq] at h
    obtain ⟨⟨_, hle⟩, hrest⟩ := h
    cases i with
    | zero => simpa using hle
    | succ m =>
      have hm : m < rest.length := by
        simpa using Nat.lt_of_succ_lt_succ hi
      exact le_trans hle (by simpa [List.getD_cons_succ] using ih a.total hrest m hm)

theorem lapsOk_total_mono :
    ∀ (l : List Lap) (prev : Int), lapsOk prev l = true →
      ∀ i j : Nat, i ≤ j → j < l.length →
        (l.getD i dummyLap).total ≤ (l.getD j dummyLap).total := by
  intro l
  induction l with
  | nil =>
    intro prev _ i j _ hj
    simp at hj
  | cons a rest ih =>
    intro prev h i j hij hj
    simp only [lapsOk, Bool.and_eq_true, decide_eq_true_eq] at h
    obtain ⟨⟨_, _⟩, hrest⟩ := h
    cases i with
    | zero =>
      cases j with
      | zero => exact le_refl _
      | succ m =>
        have hm : m < rest.length := by
          simpa using Nat.lt_of_succ_lt_succ hj
        simpa [List.getD_cons_succ] using lapsOk_prev_le rest a.total hrest m hm
    | succ p =>
      cases j with
      | zero => omega
      | succ q =>
        have hq : q < rest.length := by
          simpa using Nat.lt_of_succ_lt_succ hj
        simpa [List.getD_cons_succ] using ih a.total hrest p q (by omega) hq

/-! ## C4-C7: Stopwatch claims -/

/-- C4: after every event history applied to the initial Stopwatch state
whose wall-clock timestamps are monotone, the lap list satisfies
`laps[i].diff = laps[i].total - (laps[i-1].total if i > 0 else 0)` and
`laps[i].total` is non-decreasing in `i`. -/
theorem stopwatch_lap_invariant (ops : List (SwOp × Int))
    (hmono : List.Chain' (fun a b : Int => a ≤ b) (ops.map Prod.snd)) :
    (∀ i : Nat, i < (swRun swInit ops).laps.length →
        ((swRun swInit ops).laps.getD i dummyLap).diff =
          ((swRun swInit ops).laps.getD i dummyLap).total -
            (if i = 0 then 0 else ((swRun swInit ops).laps.getD (i - 1) dummyLap).total)) ∧
    (∀ i j : Nat, i ≤ j → j < (swRun swInit ops).laps.length →
        ((swRun swInit ops).laps.getD i dummyLap).total ≤
          ((swRun swInit ops).laps.getD j dummyLap).total) := by
  have hrun : ∃ t', SwInv t' (swRun swInit ops) := by
    cases ops with
    | nil => exact ⟨0, swInv_init 0⟩
    | cons p rest =>
      refine swRun_inv (p :: rest) swInit p.2 (swInv_init p.2) ?_
      rw [List.map_cons, List.chain'_cons]
      exact ⟨le_refl p.2, by simpa using hmono⟩
  obtain ⟨t', _, hOk, _, _⟩ := hrun
  exact ⟨lapsOk_getD_diff _ 0 hOk, lapsOk_total_mono _ 0 hOk⟩

/-- The specification's scenario: `start()` at t=0, a display tick and
`recordLap()` at t=1500, a display tick and `recordLap()` at t=4200. -/
def swScenario : List (SwOp × Int) :=
  [(SwOp.start, 0), (SwOp.tick, 1500), (SwOp.recordLap, 1500),
   (SwOp.tick, 4200), (SwOp.recordLap, 4200)]

/-- Witness for C4 on the specification's lap scenario. -/
theorem stopwatch_lap_invariant_witness :
    (∀ i : Nat, i < (swRun swInit swScenario).laps.length →
        ((swRun swInit swScenario).laps.getD i dummyLap).diff =
          ((swRun swInit swScenario).laps.getD i dummyLap).total -
            (if i = 0 then 0
             else ((swRun swInit swScenario).laps.getD (i - 1) dummyLap).total)) ∧
    (∀ i j : Nat, i ≤ j → j < (swRun swInit swScenario).laps.length →
        ((swRun swInit swScenario).laps.getD i dummyLap).total ≤
          ((swRun swInit swScenario).laps.getD j dummyLap).total) :=
  stopwatch_lap_invariant swScenario (by norm_num [swScenario, List.chain'_cons])

/-- C5: `recordLap()` is a no-op when the stopwatch is not running; when
running it appends exactly one lap whose `total` is the current elapsed
time, whose `diff` is elapsed minus the last lap's total (or minus 0 when
there is no lap yet — the 0 default is built into `lastTotal`), and whose
`number` is the previous lap count plus one, leaving every other state
field (and in particular all earlier laps) unchanged. -/
theorem stopwatch_recordLap_spec (s : StopwatchState) :
    (s.isRunning = false → Stopwatch.recordLap s = s) ∧
    (s.isRunning = true →
      (Stopwatch.recordLap s).laps =
        s.laps ++ [{ number := s.laps.length + 1
                     total := s.elapsedTime
                     diff := s.elapsedTime - lastTotal s.laps }] ∧
      (Stopwatch.recordLap s).isRunning = true ∧
      (Stopwatch.recordLap s).elapsedTime = s.elapsedTime ∧
      (Stopwatch.recordLap s).startTime = s.startTime ∧
      (Stopwatch.recordLap s).intervalActive = s.intervalActive) := by
  obtain ⟨run, st, el, act, lp⟩ := s
  cases run <;> simp [Stopwatch.recordLap]

/-- Witness for C5 on the specification's scenario state: recording a lap
at elapsed 4200 after a lap with total 1500 appends lap 2 with total 4200
and delta 2700. -/
theorem stopwatch_recordLap_spec_witness :
    (Stopwatch.recordLap ⟨true, 0, 4200, true, [⟨1, 1500, 1500⟩]⟩).laps =
      [⟨1, 1500, 1500⟩, ⟨2, 4200, 2700⟩] := by
  have h := (stopwatch_recordLap_spec ⟨true, 0, 4200, true, [⟨1, 1500, 1500⟩]⟩).2 rfl
  rw [h.1]
  decide

/-- C6: `start()` is a no-op when already running; otherwise it sets
`startTime = now - elapsedTime` and the running flag while keeping the
elapsed value, so that a later recomputation tick yields
`elapsed + (later - now)` — resuming continues from the prior elapsed
value. -/
theorem stopwatch_start_spec (now later : Int) (s : StopwatchState) :
    (s.isRunning = true → Stopwatch.start now s = s) ∧
    (s.isRunning = false →
      (Stopwatch.start now s).startTime = now - s.elapsedTime ∧
      (Stopwatch.start now s).isRunning = true ∧
      (Stopwatch.start now s).elapsedTime = s.elapsedTime ∧
      (Stopwatch.tick later (Stopwatch.start now s)).elapsedTime =
        s.elapsedTime + (later - now)) := by
  obtain ⟨run, st, el, act, lp⟩ := s
  cases run
  · simp [Stopwatch.start, Stopwatch.tick]
    omega
  · simp [Stopwatch.start, Stopwatch.tick]

/-- Witness for C6: starting at t=1000 with 500 ms accumulated, the tick
at t=1300 recomputes elapsed = 800. -/
theorem stopwatch_start_spec_witness :
    (Stopwatch.tick 1300 (Stopwatch.start 1000 ⟨false, 0, 500, false, []⟩)).elapsedTime = 800 := by
  have h := (stopwatch_start_spec 1000 1300 ⟨false, 0, 500, false, []⟩).2 rfl
  rw [h.2.2.2]
  decide

/-- C7: after `reset()` from any prior state the stopwatch satisfies
`elapsed == 0`, `laps == []` and `running == false`. -/
theorem stopwatch_reset_clears (s : StopwatchState) :
    (Stopwatch.reset s).elapsedTime = 0 ∧
    (Stopwatch.reset s).laps = [] ∧
    (Stopwatch.reset s).isRunning = false := by
  obtain ⟨run, st, el, act, lp⟩ := s
  cases run <;> simp [Stopwatch.reset, Stopwatch.pause]

/-! ## The Timer module (src/unnamed/part_000 lines 255-487) -/

/-- The Timer closure state together with the three duration input
fields it reads (`hoursValue`, `minutesValue`, `secondsValue` model the
numeric values currently held by the DOM inputs; while running the inputs
are disabled, so they can change only when not running).  `intervalActive`
models `intervalId !== null`; `beeps` records the absolute times at which
`playBeep` calls have been scheduled by `showComplete`. -/
structure TimerSys where
  isRunning : Bool
  remainingTime : Int
  totalTime : Int
  intervalActive : Bool
  endTime : Int
  hoursValue : Int
  minutesValue : Int
  secondsValue : Int
  beeps : List Int
deriving Repr, DecidableEq

/-- `getInputTime()`: clamps hours below by 0 and minutes/seconds into
[0, 59], then converts to milliseconds. -/
def getInputTime (h m s : Int) : Int :=
  (max 0 h * 3600 + max 0 (min 59 m) * 60 + max 0 (min 59 s)) * 1000

/-- The configured duration currently supplied by the input fields. -/
def inputTime (s : TimerSys) : Int :=
  getInputTime s.hoursValue s.minutesValue s.secondsValue

namespace Timer

/-- `pause()`: no-op when not running; otherwise clears the running flag
and cancels the interval. -/
def pause (s : TimerSys) : TimerSys :=
  if s.isRunning then { s with isRunning := false, intervalActive := false } else s

/-- `showComplete()` at wall-clock time `now`: schedules the three alert
beeps at offsets 0, 300 and 600 ms (`playBeep` immediately and two
`setTimeout` callbacks). -/
def showComplete (now : Int) (s : TimerSys) : TimerSys :=
  { s with beeps := s.beeps ++ [now, now + 300, now + 600] }

/-- `complete()`: pauses, zeroes the remaining time and fires the
completion signal. -/
def complete (now : Int) (s : TimerSys) : TimerSys :=
  showComplete now { pause s with remainingTime := 0 }

/-- The body of the 100 ms interval callback:
`remainingTime = Math.max(0, endTime - Date.now())`, then `complete()`
when the recomputed value is ≤ 0.  It runs only while the interval is
scheduled. -/
def tick (now : Int) (s : TimerSys) : TimerSys :=
  if s.intervalActive then
    let s' := { s with remainingTime := max 0 (s.endTime - now) }
    if s'.remainingTime ≤ 0 then complete now s' else s'
  else s

/-- `start()` with the configured duration `inputMs` supplied by the
input source: no-op when running; reads the inputs when
`remainingTime == 0`; silently declines when there is nothing to count
down; otherwise sets `endTime = now + remainingTime`, the running flag,
and schedules the interval. -/
def start (now inputMs : Int) (s : TimerSys) : TimerSys :=
  if s.isRunning then s
  else
    let s1 := if s.remainingTime = 0
      then { s with remainingTime := inputMs, totalTime := inputMs }
      else s
    if s1.remainingTime ≤ 0 then s1
    else { s1 with isRunning := true, endTime := now + s1.remainingTime, intervalActive := true }

/-- `reset()`: forces `pause()`, then reloads remaining and total from
the configured duration `inputMs` (and hides the completion overlay). -/
def reset (inputMs : Int) (s : TimerSys) : TimerSys :=
  let s' := pause s
  { s' with remainingTime := inputMs, totalTime := inputMs }

end Timer

/-- `updateDisplayFromInputs()`: while not running, mirrors the input
fields into `remainingTime` and `totalTime`. -/
def updateDisplayFromInputs (s : TimerSys) : TimerSys :=
  if s.isRunning then s
  else { s with remainingTime := inputTime s, totalTime := inputTime s }

/-- `start()` as invoked by the start button: the configured duration is
read from the input fields. -/
def sysStart (now : Int) (s : TimerSys) : TimerSys :=
  Timer.start now (inputTime s) s

/-- `reset()` as invoked by the reset button. -/
def sysReset (s : TimerSys) : TimerSys :=
  Timer.reset (inputTime s) s

/-- The hours input event handler: `validateInput(hoursInput, 0, 99)`
then `updateDisplayFromInputs()`.  The inputs are disabled while the
timer runs, so the event can fire only when not running. -/
def editHours (v : Int) (s : TimerSys) : TimerSys :=
  if s.isRunning then s
  else updateDisplayFromInputs { s with hoursValue := max 0 (min 99 v) }

/-- The minutes input event handler (`validateInput(minutesInput, 0, 59)`). -/
def editMinutes (v : Int) (s : TimerSys) : TimerSys :=
  if s.isRunning then s
  else updateDisplayFromInputs { s with minutesValue := max 0 (min 59 v) }

/-- The seconds input event handler (`validateInput(secondsInput, 0, 59)`). -/
def editSeconds (v : Int) (s : TimerSys) : TimerSys :=
  if s.isRunning then s
  else updateDisplayFromInputs { s with secondsValue := max 0 (min 59 v) }

/-- The events that can reach the Timer module: button clicks, the
interval callback (carrying `Date.now()`), the internal completion
transition, and input edits. -/
inductive TOp where
  | start : Int → TOp
  | pause : TOp
  | reset : TOp
  | tick : Int → TOp
  | complete : Int → TOp
  | editHours : Int → TOp
  | editMinutes : Int → TOp
  | editSeconds : Int → TOp
deriving Repr, DecidableEq

/-- One event applied to the Timer system state. -/
def tStep (s : TimerSys) : TOp → TimerSys
  | TOp.start now => sysStart now s
  | TOp.pause => Timer.pause s
  | TOp.reset => sysReset s
  | TOp.tick now => Timer.tick now s
  | TOp.complete now => Timer.complete now s
  | TOp.editHours v => editHours v s
  | TOp.editMinutes v => editMinutes v s
  | TOp.editSeconds v => editSeconds v s

/-- A whole event history applied to a Timer system state. -/
def tRun (s : TimerSys) (ops : List TOp) : TimerSys :=
  ops.foldl tStep s

/-- The Timer state right after `init()`: all closure variables at their
declared initial values (`isRunning = false`, `remainingTime = 0`,
`totalTime = 0`, `intervalId = null`, `endTime = 0`), input fields at
their initial page values `h`, `m`, `sec`, followed by the initial
`updateDisplayFromInputs()` call performed by `init()`. -/
def timerInit (h m sec : Int) : TimerSys :=
  updateDisplayFromInputs
    { isRunning := false, remainingTime := 0, totalTime := 0, intervalActive := false,
      endTime := 0, hoursValue := h, minutesValue := m, secondsValue := sec, beeps := [] }

theorem getInputTime_nonneg (h m s : Int) : 0 ≤ getInputTime h m s := by
  have h1 : (0 : Int) ≤ max 0 h := le_max_left 0 h
  have h2 : (0 : Int) ≤ max 0 (min 59 m) := le_max_left 0 (min 59 m)
  have h3 : (0 : Int) ≤ max 0 (min 59 s) := le_max_left 0 (min 59 s)
  have := mul_nonneg (add_nonneg (add_nonneg
    (mul_nonneg h1 (by norm_num : (0:Int) ≤ 3600))
    (mul_nonneg h2 (by norm_num : (0:Int) ≤ 60))) h3) (by norm_num : (0:Int) ≤ 1000)
  simpa [getInputTime, mul_comm] using this

theorem inputTime_nonneg (s : TimerSys) : 0 ≤ inputTime s :=
  getInputTime_nonneg s.hoursValue s.minutesValue s.secondsValue

/-- The Timer reachability invariant: the interval flag mirrors the
running flag, the remaining time is never negative, the input fields
supply a positive duration whenever the timer runs (they are disabled,
hence frozen, while it runs), and a stopped timer whose inputs read 0
always has `remainingTime = totalTime = 0` (any edit that zeroes the
inputs also zeroes the display through `updateDisplayFromInputs`). -/
def TInv (s : TimerSys) : Prop :=
  s.intervalActive = s.isRunning ∧
  0 ≤ s.remainingTime ∧
  (s.isRunning = true → 0 < inputTime s) ∧
  (s.isRunning = false → 0 < inputTime s ∨ (s.remainingTime = 0 ∧ s.totalTime = 0))

theorem TInv_mk {run act : Bool} {rem tot endt hv mv sv : Int} {bp : List Int}
    (hact : act = run) (hrem : 0 ≤ rem)
    (hrun : run = true → 0 < getInputTime hv mv sv)
    (hstop : run = false → 0 < getInputTime hv mv sv ∨ (rem = 0 ∧ tot = 0)) :
    TInv ⟨run, rem, tot, act, endt, hv, mv, sv, bp⟩ :=
  ⟨hact, hrem, hrun, hstop⟩

theorem tInv_init (h m sec : Int) : TInv (timerInit h m sec) := by
  have hg := getInputTime_nonneg h m sec
  rw [show timerInit h m sec =
      ⟨false, getInputTime h m sec, getInputTime h m sec, false, 0, h, m, sec, []⟩ from by
    simp [timerInit, updateDisplayFromInputs, inputTime]]
  exact TInv_mk rfl hg (fun hx => Bool.noConfusion hx) (fun _ => by omega)

theorem tStep_inv {s : TimerSys} (hs : TInv s) (op : TOp) : TInv (tStep s op) := by
  obtain ⟨h1, h2, h3, h4⟩ := hs
  obtain ⟨run, rem, tot, act, endt, hv, mv, sv, bp⟩ := s
  replace h1 : act = run := h1
  replace h2 : 0 ≤ rem := h2
  replace h3 : run = true → 0 < getInputTime hv mv sv := h3
  replace h4 : run = false → 0 < getInputTime hv mv sv ∨ (rem = 0 ∧ tot = 0) := h4
  subst h1
  have hg : 0 ≤ getInputTime hv mv sv := getInputTime_nonneg hv mv sv
  cases act with
  | false =>
    have h4' := h4 rfl
    cases op with
    | start now =>
      by_cases hrem : rem = 0
      · by_cases hgle : getInputTime hv mv sv ≤ 0
        · rw [show tStep ⟨false, rem, tot, false, endt, hv, mv, sv, bp⟩ (TOp.start now) =
              ⟨false, getInputTime hv mv sv, getInputTime hv mv sv, false, endt,
               hv, mv, sv, bp⟩ from by
            simp [tStep, sysStart, Timer.start, inputTime, hrem, hgle]]
          exact TInv_mk rfl hg (fun hx => Bool.noConfusion hx) (fun _ => by omega)
        · rw [show tStep ⟨false, rem, tot, false, endt, hv, mv, sv, bp⟩ (TOp.start now) =
              ⟨true, getInputTime hv mv sv, getInputTime hv mv sv, true,
               now + getInputTime hv mv sv, hv, mv, sv, bp⟩ from by
            simp [tStep, sysStart, Timer.start, inputTime, hrem, hgle]]
          exact TInv_mk rfl hg (fun _ => by omega) (fun hx => Bool.noConfusion hx)
      · rw [show tStep ⟨false, rem, tot, false, endt, hv, mv, sv, bp⟩ (TOp.start now) =
            ⟨true, rem, tot, true, now + rem, hv, mv, sv, bp⟩ from by
          simp [tStep, sysStart, Timer.start, inputTime, hrem,
            show ¬ rem ≤ 0 from by omega]]
        exact TInv_mk rfl h2 (fun _ => by omega) (fun hx => Bool.noConfusion hx)
    | pause =>
      rw [show tStep ⟨false, rem, tot, false, endt, hv, mv, sv, bp⟩ TOp.pause =
          ⟨false, rem, tot, false, endt, hv, mv, sv, bp⟩ from by
        simp [tStep, Timer.pause]]
      exact TInv_mk rfl h2 (fun hx => Bool.noConfusion hx) (fun _ => h4')
    | reset =>
      rw [show tStep ⟨false, rem, tot, false, endt, hv, mv, sv, bp⟩ TOp.reset =
          ⟨false, getInputTime hv mv sv, getInputTime hv mv sv, false, endt,
           hv, mv, sv, bp⟩ from by
        simp [tStep, sysReset, Timer.reset, Timer.pause, inputTime]]
      exact TInv_mk rfl hg (fun hx => Bool.noConfusion hx) (fun _ => by omega)
    | tick now =>
      rw [show tStep ⟨false, rem, tot, false, endt, hv, mv, sv, bp⟩ (TOp.tick now) =
          ⟨false, rem, tot, false, endt, hv, mv, sv, bp⟩ from by
        simp [tStep, Timer.tick]]
      exact TInv_mk rfl h2 (fun hx => Bool.noConfusion hx) (fun _ => h4')
    | complete now =>
      rw [show tStep ⟨false, rem, tot, false, endt, hv, mv, sv, bp⟩ (TOp.complete now) =
          ⟨false, 0, tot, false, endt, hv, mv, sv,
           bp ++ [now, now + 300, now + 600]⟩ from by
        simp [tStep, Timer.complete, Timer.showComplete, Timer.pause]]
      exact TInv_mk rfl (le_refl 0) (fun hx => Bool.noConfusion hx) (fun _ => by omega)
    | editHours v =>
      have hg' := getInputTime_nonneg (max 0 (min 99 v)) mv sv
      rw [show tStep ⟨false, rem, tot, false, endt, hv, mv, sv, bp⟩ (TOp.editHours v) =
          ⟨false, getInputTime (max 0 (min 99 v)) mv sv,
           getInputTime (max 0 (min 99 v)) mv sv, false, endt,
           max 0 (min 99 v), mv, sv, bp⟩ from by
        simp [tStep, editHours, updateDisplayFromInputs, inputTime]]
      exact TInv_mk rfl hg' (fun hx => Bool.noConfusion hx) (fun _ => by omega)
    | editMinutes v =>
      have hg' := getInputTime_nonneg hv (max 0 (min 59 v)) sv
      rw [show tStep ⟨false, rem, tot, false, endt, hv, mv, sv, bp⟩ (TOp.editMinutes v) =
          ⟨false, getInputTime hv (max 0 (min 59 v)) sv,
           getInputTime hv (max 0 (min 59 v)) sv, false, endt,
           hv, max 0 (min 59 v), sv, bp⟩ from by
        simp [tStep, editMinutes, updateDisplayFromInputs, inputTime]]
      exact TInv_mk rfl hg' (fun hx => Bool.noConfusion hx) (fun _ => by omega)
    | editSeconds v =>
      have hg' := getInputTime_nonneg hv mv (max 0 (min 59 v))
      rw [show tStep ⟨false, rem, tot, false, endt, hv, mv, sv, bp⟩ (TOp.editSeconds v) =
          ⟨false, getInputTime hv mv (max 0 (min 59 v)),
           getInputTime hv mv (max 0 (min 59 v)), false, endt,
           hv, mv, max 0 (min 59 v), bp⟩ from by
        simp [tStep, editSeconds, updateDisplayFromInputs, inputTime]]
      exact TInv_mk rfl hg' (fun hx => Bool.noConfusion hx) (fun _ => by omega)
  | true =>
    have h3' := h3 rfl
    cases op with
    | start now =>
      rw [show tStep ⟨true, rem, tot, true, endt, hv, mv, sv, bp⟩ (TOp.start now) =
          ⟨true, rem, tot, true, endt, hv, mv, sv, bp⟩ from by
        simp [tStep, sysStart, Timer.start]]
      exact TInv_mk rfl h2 (fun _ => h3') (fun hx => Bool.noConfusion hx)
    | pause =>
      rw [show tStep ⟨true, rem, tot, true, endt, hv, mv, sv, bp⟩ TOp.pause =
          ⟨false, rem, tot, false, endt, hv, mv, sv, bp⟩ from by
        simp [tStep, Timer.pause]]
      exact TInv_mk rfl h2 (fun hx => Bool.noConfusion hx) (fun _ => Or.inl h3')
    | reset =>
      rw [show tStep ⟨true, rem, tot, true, endt, hv, mv, sv, bp⟩ TOp.reset =
          ⟨false, getInputTime hv mv sv, getInputTime hv mv sv, false, endt,
           hv, mv, sv, bp⟩ from by
        simp [tStep, sysReset, Timer.reset, Timer.pause, inputTime]]
      exact TInv_mk rfl hg (fun hx => Bool.noConfusion hx) (fun _ => by omega)
    | tick now =>
      by_cases hle : max 0 (endt - now) ≤ 0
      · rw [show tStep ⟨true, rem, tot, true, endt, hv, mv, sv, bp⟩ (TOp.tick now) =
            ⟨false, 0, tot, false, endt, hv, mv, sv,
             bp ++ [now, now + 300, now + 600]⟩ from by
          simp [tStep, Timer.tick, Timer.complete, Timer.showComplete, Timer.pause, hle]]
        exact TInv_mk rfl (le_refl 0) (fun hx => Bool.noConfusion hx) (fun _ => Or.inl h3')
      · rw [show tStep ⟨true, rem, tot, true, endt, hv, mv, sv, bp⟩ (TOp.tick now) =
            ⟨true, max 0 (endt - now), tot, true, endt, hv, mv, sv, bp⟩ from by
          simp [tStep, Timer.tick, hle]]
        exact TInv_mk rfl (le_max_left 0 _) (fun _ => h3') (fun hx => Bool.noConfusion hx)
    | complete now =>
      rw [show tStep ⟨true, rem, tot, true, endt, hv, mv, sv, bp⟩ (TOp.complete now) =
          ⟨false, 0, tot, false, endt, hv, mv, sv,
           bp ++ [now, now + 300, now + 600]⟩ from by
        simp [tStep, Timer.complete, Timer.showComplete, Timer.pause]]
      exact TInv_mk rfl (le_refl 0) (fun hx => Bool.noConfusion hx) (fun _ => Or.inl h3')
    | editHours v =>
      rw [show tStep ⟨true, rem, tot, true, endt, hv, mv, sv, bp⟩ (TOp.editHours v) =
          ⟨true, rem, tot, true, endt, hv, mv, sv, bp⟩ from by
        simp [tStep, editHours]]
      exact TInv_mk rfl h2 (fun _ => h3') (fun hx => Bool.noConfusion hx)
    | editMinutes v =>
      rw [show tStep ⟨true, rem, tot, true, endt, hv, mv, sv, bp⟩ (TOp.editMinutes v) =
          ⟨true, rem, tot, true, endt, hv, mv, sv, bp⟩ from by
        simp [tStep, editMinutes]]
      exact TInv_mk rfl h2 (fun _ => h3') (fun hx => Bool.noConfusion hx)
    | editSeconds v =>
      rw [show tStep ⟨true, rem, tot, true, endt, hv, mv, sv, bp⟩ (TOp.editSeconds v) =
          ⟨true, rem, tot, true, endt, hv, mv, sv, bp⟩ from by
        simp [tStep, editSeconds]]
      exact TInv_mk rfl h2 (fun _ => h3') (fun hx => Bool.noConfusion hx)

theorem tRun_inv (h m sec : Int) (ops : List TOp) : TInv (tRun (timerInit h m sec) ops) := by
  suffices hgen : ∀ s : TimerSys, TInv s → TInv (tRun s ops) from hgen _ (tInv_init h m sec)
  induction ops with
  | nil =>
    intro s hs
    exact hs
  | cons op rest ih =>
    intro s hs
    exact ih (tStep s op) (tStep_inv hs op)

/-! ## C8, C3, C9: Timer safety claims -/

/-- C8: in every reachable Timer state — after any event history of
`start`, `pause`, `reset`, `complete`, periodic recomputation ticks and
input edits applied to the initialized module — `remainingTime ≥ 0`. -/
theorem timer_remaining_nonneg (h m sec : Int) (ops : List TOp) :
    0 ≤ (tRun (timerInit h m sec) ops).remainingTime :=
  (tRun_inv h m sec ops).2.1

/-- Helper for C3: from a stopped state with zero remaining/total and
inputs supplying a non-positive duration, `start()` returns the state
completely unchanged. -/
theorem timer_start_stopped_zero (s : TimerSys) (now : Int)
    (hrun : s.isRunning = false) (hrem : s.remainingTime = 0) (htot : s.totalTime = 0)
    (hzero : inputTime s ≤ 0) :
    sysStart now s = s := by
  obtain ⟨run, rem, tot, act, endt, hv, mv, sv, bp⟩ := s
  replace hzero : getInputTime hv mv sv ≤ 0 := hzero
  replace hrun : run = false := hrun
  replace hrem : rem = 0 := hrem
  replace htot : tot = 0 := htot
  subst hrun hrem htot
  have hg := getInputTime_nonneg hv mv sv
  have hgz : getInputTime hv mv sv = 0 := le_antisymm hzero hg
  simp [sysStart, Timer.start, inputTime, hgz]

/-- C3: in every reachable Timer state whose configured duration — the
value currently supplied by the input fields, which after clamping can
never be negative — is zero (or, vacuously, negative), pressing start is
a silent no-op: it raises no error, leaves the state completely
unchanged, the machine is not and does not become Running, and no
periodic callback is scheduled. -/
theorem timer_start_zero_noop (h m sec now : Int) (ops : List TOp)
    (hzero : inputTime (tRun (timerInit h m sec) ops) ≤ 0) :
    sysStart now (tRun (timerInit h m sec) ops) = tRun (timerInit h m sec) ops ∧
    (tRun (timerInit h m sec) ops).isRunning = false ∧
    (tRun (timerInit h m sec) ops).intervalActive = false := by
  obtain ⟨h1, h2, h3, h4⟩ := tRun_inv h m sec ops
  have hrun : (tRun (timerInit h m sec) ops).isRunning = false := by
    cases hr : (tRun (timerInit h m sec) ops).isRunning
    · rfl
    · have := h3 hr
      omega
  have hact : (tRun (timerInit h m sec) ops).intervalActive = false := by
    rw [h1, hrun]
  have hz : (tRun (timerInit h m sec) ops).remainingTime = 0 ∧
      (tRun (timerInit h m sec) ops).totalTime = 0 := by
    rcases h4 hrun with hpos | hzz
    · omega
    · exact hzz
  exact ⟨timer_start_stopped_zero _ now hrun hz.1 hz.2 hzero, hrun, hact⟩

/-- Witness for C3: with all inputs at 0, pressing start right after
initialization changes nothing. -/
theorem timer_start_zero_noop_witness :
    sysStart 7 (tRun (timerInit 0 0 0) []) = tRun (timerInit 0 0 0) [] ∧
    (tRun (timerInit 0 0 0) []).isRunning = false ∧
    (tRun (timerInit 0 0 0) []).intervalActive = false :=
  timer_start_zero_noop 0 0 0 7 [] (by decide)

/-- C9: for both machines, calling `pause()` twice in a row leaves the
state identical to calling it once — the second call is a silent no-op
that raises no error and changes no state field. -/
theorem pause_idempotent (s : StopwatchState) (t : TimerSys) :
    Stopwatch.pause (Stopwatch.pause s) = Stopwatch.pause s ∧
    Timer.pause (Timer.pause t) = Timer.pause t := by
  constructor
  · obtain ⟨run, st, el, act, lp⟩ := s
    cases run <;> simp [Stopwatch.pause]
  · obtain ⟨run, rem, tot, act, endt, hv, mv, sv, bp⟩ := t
    cases run <;> simp [Timer.pause]

/-! ## C2: an uninterrupted countdown completes exactly once -/

/-- The wall-clock instants at which the 100 ms interval callback fires
after a start at time `t0`: `t0 + 100`, `t0 + 200`, ... -/
def tickTimes (t0 : Int) (n : Nat) : List Int :=
  (List.range n).map (fun i => t0 + 100 * ((i : Int) + 1))

/-- Running the interval callback at each instant of a list, in order. -/
def tickRun (s : TimerSys) (ts : List Int) : TimerSys :=
  ts.foldl (fun st t => Timer.tick t st) s

theorem tickRun_append (s : TimerSys) (l1 l2 : List Int) :
    tickRun s (l1 ++ l2) = tickRun (tickRun s l1) l2 := by
  simp [tickRun, List.foldl_append]

theorem tickTimes_succ (t0 : Int) (n : Nat) :
    tickTimes t0 (n + 1) = tickTimes t0 n ++ [t0 + 100 * ((n : Int) + 1)] := by
  simp [tickTimes, List.range_succ]

/-- A fired interval callback is a no-op once the interval has been
cancelled (`clearInterval` is synchronous). -/
theorem tick_inactive (t : Int) (s : TimerSys) (h : s.intervalActive = false) :
    Timer.tick t s = s := by
  simp [Timer.tick, h]

/-- While the countdown has not yet reached its end instant, each tick
merely recomputes `remainingTime = endTime - now` from the wall clock. -/
theorem tickRun_coast (sr : TimerSys) (t0 : Int)
    (hact : sr.intervalActive = true) (hrel : sr.remainingTime = sr.endTime - t0) :
    ∀ m : Nat, 100 * (m : Int) < sr.endTime - t0 →
      tickRun sr (tickTimes t0 m) =
        { sr with remainingTime := sr.endTime - t0 - 100 * (m : Int) } := by
  obtain ⟨run, rem, tot, act, endt, hv, mv, sv, bp⟩ := sr
  replace hact : act = true := hact
  replace hrel : rem = endt - t0 := hrel
  subst hact hrel
  intro m
  induction m with
  | zero =>
    intro _
    simp [tickTimes, tickRun]
  | succ k ih =>
    intro hlt
    have hk : 100 * (k : Int) < endt - t0 := by
      push_cast at hlt ⊢
      omega
    rw [tickTimes_succ, tickRun_append, ih hk]
    have hpos : (0 : Int) ≤ endt - (t0 + 100 * ((k : Int) + 1)) := by
      push_cast at hlt
      omega
    have hmax : max 0 (endt - (t0 + 100 * ((k : Int) + 1))) =
        endt - t0 - 100 * ((k : Int) + 1) := by
      rw [max_eq_right hpos]
      ring
    have hgt : ¬ endt - t0 - 100 * ((k : Int) + 1) ≤ 0 := by
      push_cast at hlt
      omega
    simp only [tickRun, List.foldl_cons, List.foldl_nil]
    rw [show Timer.tick (t0 + 100 * ((k : Int) + 1))
        ⟨run, endt - t0 - 100 * (k : Int), tot, true, endt, hv, mv, sv, bp⟩ =
        ⟨run, endt - t0 - 100 * ((k : Int) + 1), tot, true, endt, hv, mv, sv, bp⟩ from by
      simp [Timer.tick, hmax, hgt]]
    push_cast
    ring_nf

/-- C2: a Timer started from idle with a configured duration D > 0 and
left running uninterrupted (only the periodic recomputation fires) has
its remaining time reach exactly 0 at the first tick at or past the end
instant — the `N`-th tick, where `N` is characterised by
`100·(N-1) < D ≤ 100·N` — at which point it transitions to Complete
exactly once: it pauses (running flag cleared, interval cancelled), sets
`remaining = 0`, and fires the completion signal exactly once per run,
scheduling three beeps at offsets 0/300/600 ms; all later ticks change
nothing. -/
theorem timer_countdown_completes_once (s : TimerSys) (t0 : Int) (N n : Nat)
    (hrun : s.isRunning = false) (hrem : s.remainingTime = 0)
    (hD : 0 < inputTime s)
    (hN1 : 100 * ((N : Int) - 1) < inputTime s)
    (hN2 : inputTime s ≤ 100 * (N : Int))
    (hn : N ≤ n) :
    (sysStart t0 s).isRunning = true ∧
    (tickRun (sysStart t0 s) (tickTimes t0 n)).isRunning = false ∧
    (tickRun (sysStart t0 s) (tickTimes t0 n)).intervalActive = false ∧
    (tickRun (sysStart t0 s) (tickTimes t0 n)).remainingTime = 0 ∧
    (tickRun (sysStart t0 s) (tickTimes t0 n)).beeps =
      s.beeps ++ [t0 + 100 * (N : Int), t0 + 100 * (N : Int) + 300,
                  t0 + 100 * (N : Int) + 600] := by
  obtain ⟨run, rem, tot, act, endt, hv, mv, sv, bp⟩ := s
  replace hrun : run = false := hrun
  replace hrem : rem = 0 := hrem
  replace hD : 0 < getInputTime hv mv sv := hD
  replace hN1 : 100 * ((N : Int) - 1) < getInputTime hv mv sv := hN1
  replace hN2 : getInputTime hv mv sv ≤ 100 * (N : Int) := hN2
  subst hrun hrem
  have hstart : sysStart t0 ⟨false, 0, tot, act, endt, hv, mv, sv, bp⟩ =
      ⟨true, getInputTime hv mv sv, getInputTime hv mv sv, true,
       t0 + getInputTime hv mv sv, hv, mv, sv, bp⟩ := by
    simp [sysStart, Timer.start, inputTime, show ¬ getInputTime hv mv sv ≤ 0 from by omega]
  obtain ⟨K, hK⟩ : ∃ K, N = K + 1 := by
    cases N with
    | zero =>
      exfalso
      push_cast at hN2
      omega
    | succ K => exact ⟨K, rfl⟩
  subst hK
  have hcoast := tickRun_coast
    ⟨true, getInputTime hv mv sv, getInputTime hv mv sv, true,
     t0 + getInputTime hv mv sv, hv, mv, sv, bp⟩ t0 rfl
    (show getInputTime hv mv sv = t0 + getInputTime hv mv sv - t0 from by ring)
    K
    (show 100 * (K : Int) < t0 + getInputTime hv mv sv - t0 from by push_cast at hN1; omega)
  have hstep : tickRun
      ⟨true, getInputTime hv mv sv, getInputTime hv mv sv, true,
       t0 + getInputTime hv mv sv, hv, mv, sv, bp⟩ (tickTimes t0 (K + 1)) =
      ⟨false, 0, getInputTime hv mv sv, false, t0 + getInputTime hv mv sv, hv, mv, sv,
       bp ++ [t0 + 100 * ((K : Int) + 1), t0 + 100 * ((K : Int) + 1) + 300,
              t0 + 100 * ((K : Int) + 1) + 600]⟩ := by
    rw [tickTimes_succ, tickRun_append, hcoast]
    have hle : t0 + getInputTime hv mv sv - (t0 + 100 * ((K : Int) + 1)) ≤ 0 := by
      push_cast at hN2
      omega
    have hmax : max 0 (t0 + getInputTime hv mv sv - (t0 + 100 * ((K : Int) + 1))) = 0 :=
      max_eq_left hle
    simp only [tickRun, List.foldl_cons, List.foldl_nil]
    simp [Timer.tick, Timer.complete, Timer.showComplete, Timer.pause, hmax]
    push_cast at hN2
    omega
  have hall : ∀ j : Nat, tickRun
      ⟨true, getInputTime hv mv sv, getInputTime hv mv sv, true,
       t0 + getInputTime hv mv sv, hv, mv, sv, bp⟩ (tickTimes t0 ((K + 1) + j)) =
      ⟨false, 0, getInputTime hv mv sv, false, t0 + getInputTime hv mv sv, hv, mv, sv,
       bp ++ [t0 + 100 * ((K : Int) + 1), t0 + 100 * ((K : Int) + 1) + 300,
              t0 + 100 * ((K : Int) + 1) + 600]⟩ := by
    intro j
    induction j with
    | zero => exact hstep
    | succ i ihj =>
      rw [show (K + 1) + (i + 1) = ((K + 1) + i) + 1 from rfl, tickTimes_succ,
        tickRun_append, ihj]
      simp only [tickRun, List.foldl_cons, List.foldl_nil]
      exact tick_inactive _ _ rfl
  obtain ⟨j, hj⟩ : ∃ j : Nat, n = (K + 1) + j := ⟨n - (K + 1), by omega⟩
  rw [hstart, hj, hall j]
  refine ⟨rfl, rfl, rfl, rfl, ?_⟩
  push_cast
  rfl

/-- Witness for C2: a 1-second countdown (inputs 0:0:1) started at t=0
completes at the 10th tick (t=1000), scheduling beeps at 1000/1300/1600. -/
theorem timer_countdown_completes_once_witness :
    (sysStart 0 ⟨false, 0, 0, false, 0, 0, 0, 1, []⟩).isRunning = true ∧
    (tickRun (sysStart 0 ⟨false, 0, 0, false, 0, 0, 0, 1, []⟩)
      (tickTimes 0 10)).remainingTime = 0 ∧
    (tickRun (sysStart 0 ⟨false, 0, 0, false, 0, 0, 0, 1, []⟩)
      (tickTimes 0 10)).beeps = [1000, 1300, 1600] := by
  have h := timer_countdown_completes_once ⟨false, 0, 0, false, 0, 0, 0, 1, []⟩ 0 10 10
    rfl rfl (by decide) (by decide) (by decide) (le_refl 10)
  refine ⟨h.1, h.2.2.2.1, ?_⟩
  rw [h.2.2.2.2]
  decide
